import Mathlib

/-!
Shallow embedding of the digital-logic network simulator
(src/logic/gates.js, src/logic/io.js, src/logic/simulation.js).

JavaScript objects are modelled by an arena: a heap is a list of
components and an object reference is the index of the component in
that list (JS reference identity becomes index equality).  Display
names are omitted from the embedding: no modelled operation reads a
name (names appear only inside console messages and in
getCircuitState, which is not needed by any claim); console.error and
console.warn calls are modelled by an explicit log of message tags.
Methods that JavaScript dispatches dynamically (typeof checks) are
modelled by matching on the component variant.  A JS call stack is
modelled by fuel: running out of fuel corresponds to the RangeError a
real engine raises on unbounded mutual recursion, and a thrown
TypeError is a distinguished status; in both cases mutations performed
before the throw persist, exactly as in JavaScript.
-/

/-- The JS constant HIGH = 1 from gates.js. -/
def HIGH : Nat := 1

/-- The JS constant LOW = 0 from gates.js. -/
def LOW : Nat := 0

/-- The two concrete gate classes used by the claims: AndGate and NotGate. -/
inductive GateKind where
  | andK
  | notK
deriving DecidableEq, Repr

/-- Fields of a LogicGate instance (gates.js): the ordered upstream
reference list, the cached output value, the downstream reference list
and the capacity maxInputs (2 for AndGate, 1 for NotGate). -/
structure GateData where
  kind : GateKind
  inputs : List Nat
  outputValue : Nat
  outputs : List Nat
  maxInputs : Nat
deriving DecidableEq, Repr

/-- A component: an InputPoint (io.js: value, outputs), an OutputPoint
(io.js: single input slot, cached value) or a LogicGate (gates.js). -/
inductive Component where
  | inputPoint (value : Nat) (outputs : List Nat)
  | outputPoint (input : Option Nat) (value : Nat)
  | gate (g : GateData)
deriving DecidableEq, Repr

/-- The object arena: index = reference. -/
abbrev Heap := List Component

/-- getOutput, present on every component kind: InputPoint.getOutput
returns this.value, OutputPoint.getOutput returns getValue() = this.value,
LogicGate.getOutput returns this.outputValue. -/
def getOutput : Component → Nat
  | .inputPoint v _ => v
  | .outputPoint _ v => v
  | .gate g => g.outputValue

/-- LogicGate.getInputValue(index) (gates.js): if the index is within
this.inputs and the entry is a live object, return its getOutput()
(every modelled component has getOutput), else default to LOW.  The
dangling-index fallbacks are unreachable for heaps that model real JS
object references, which always point at live objects. -/
def getInputValue (h : Heap) (g : GateData) (index : Nat) : Nat :=
  if index < g.inputs.length then
    match g.inputs.get? index with
    | some srcId =>
      match h.get? srcId with
      | some c => getOutput c
      | none => LOW
    | none => LOW
  else LOW

/-- AndGate.evaluate / NotGate.evaluate (gates.js): AND outputs LOW when
fewer than maxInputs inputs are connected, else HIGH iff both input
values are HIGH; NOT outputs LOW when no input is connected, else the
inverse of its input value. -/
def evaluate (h : Heap) (g : GateData) : Nat :=
  match g.kind with
  | .andK =>
    if g.inputs.length < g.maxInputs then LOW
    else
      let val1 := getInputValue h g 0
      let val2 := getInputValue h g 1
      if val1 = HIGH ∧ val2 = HIGH then HIGH else LOW
  | .notK =>
    if g.inputs.length < 1 then LOW
    else
      let val := getInputValue h g 0
      if val = HIGH then LOW else HIGH

/-- C5: for every pair of connected input signals (a,b) in {LOW,HIGH}²,
evaluating a 2-input AND gate yields HIGH iff a = HIGH and b = HIGH and
LOW otherwise; and every AND gate with fewer than 2 connected inputs
evaluates to LOW regardless of any connected input value. -/
theorem andGate_evaluate_ok :
    (∀ (h : Heap) (g : GateData) (x y : Nat) (cx cy : Component) (a b : Nat),
      g.kind = .andK → g.maxInputs = 2 → g.inputs = [x, y] →
      h.get? x = some cx → h.get? y = some cy →
      getOutput cx = a → getOutput cy = b →
      evaluate h g = (if a = HIGH ∧ b = HIGH then HIGH else LOW)) ∧
    (∀ (h : Heap) (g : GateData),
      g.kind = .andK → g.maxInputs = 2 → g.inputs.length < 2 →
      evaluate h g = LOW) := by
  constructor
  · intro h g x y cx cy a b hk hm hin hx hy ha hb
    subst ha hb
    rw [List.get?_eq_getElem?] at hx hy
    simp only [evaluate, hk, hm, hin, getInputValue]
    norm_num [List.get?, hx, hy]
  · intro h g hk hm hlen
    simp only [evaluate, hk, hm]
    rw [if_pos hlen]

/-- Witness for C5: a concrete AND gate over two HIGH input points
evaluates to HIGH. -/
theorem andGate_evaluate_ok_witness :
    evaluate [Component.inputPoint 1 [], Component.inputPoint 1 []]
      ⟨GateKind.andK, [0, 1], 0, [], 2⟩ = HIGH := by
  have := andGate_evaluate_ok.1
    [Component.inputPoint 1 [], Component.inputPoint 1 []]
    ⟨GateKind.andK, [0, 1], 0, [], 2⟩ 0 1
    (Component.inputPoint 1 []) (Component.inputPoint 1 []) 1 1
    rfl rfl rfl rfl rfl rfl rfl
  simpa [HIGH, LOW] using this

/-- C6: for every connected input signal a in {LOW,HIGH}, evaluating a
NOT gate yields HIGH iff a = LOW and LOW iff a = HIGH; and a NOT gate
with 0 connected inputs evaluates to LOW. -/
theorem notGate_evaluate_ok :
    (∀ (h : Heap) (g : GateData) (x : Nat) (cx : Component) (a : Nat),
      g.kind = .notK → g.inputs = [x] →
      h.get? x = some cx → getOutput cx = a →
      evaluate h g = (if a = HIGH then LOW else HIGH)) ∧
    (∀ (h : Heap) (g : GateData),
      g.kind = .notK → g.inputs = [] →
      evaluate h g = LOW) := by
  constructor
  · intro h g x cx a hk hin hx ha
    subst ha
    rw [List.get?_eq_getElem?] at hx
    simp only [evaluate, hk, hin, getInputValue]
    norm_num [List.get?, hx]
  · intro h g hk hin
    simp [evaluate, hk, hin]

/-- Witness for C6: a concrete NOT gate over a LOW input point
evaluates to HIGH. -/
theorem notGate_evaluate_ok_witness :
    evaluate [Component.inputPoint 0 []]
      ⟨GateKind.notK, [0], 0, [], 1⟩ = HIGH := by
  have := notGate_evaluate_ok.1
    [Component.inputPoint 0 []]
    ⟨GateKind.notK, [0], 0, [], 1⟩ 0
    (Component.inputPoint 0 []) 0
    rfl rfl rfl rfl
  simpa [HIGH, LOW] using this

/-- Outcome of a method call: normal return, a thrown TypeError
(accessing a method or field that the receiver does not have), or
call-stack exhaustion (the RangeError of unbounded mutual recursion). -/
inductive Status where
  | ok
  | typeError
  | overflow
deriving DecidableEq, Repr

/-- Tags for the console.error / console.warn messages of the source. -/
inductive LogMsg where
  | warnReplacing
  | errMaxInputs
  | errNotRegistered
  | errBadEndpoints
  | errInvalidValue
deriving DecidableEq, Repr

/-- The four link-mutating instance methods of the source. -/
inductive MName where
  | addOutput
  | addInput
  | removeOutput
  | removeInput
deriving DecidableEq, Repr

/-- OutputPoint.update (io.js): copy the connected source's getOutput()
into this.value, defaulting to LOW when no input is connected. -/
def opUpdate (h : Heap) (self : Nat) : Heap × Status :=
  match h.get? self with
  | some (.outputPoint inp _) =>
    let newv := match inp with
      | some j =>
        match h.get? j with
        | some c => getOutput c
        | none => LOW
      | none => LOW
    (h.set self (.outputPoint inp newv), .ok)
  | _ => (h, .typeError)

/-- Dynamic dispatch of the four link methods of io.js and gates.js,
with a fuel bound standing for the JS call stack.  Every branch follows
the source line by line; in particular LogicGate.addOutput and
InputPoint.addOutput evaluate `destination.inputs.includes(this)` after
the typeof check on destination.addInput, which throws a TypeError when
the destination is an OutputPoint (it has a singular `input` field and
no `inputs` array), and the remove methods call each other back without
any membership guard. -/
def call : Nat → MName → Nat → Nat → Heap → Heap × List LogMsg × Status
  | 0, _, _, _, h => (h, [], .overflow)
  | fuel+1, .addOutput, self, dest, h =>
    match h.get? self with
    | some (.inputPoint v outs) =>
      -- InputPoint.addOutput (io.js)
      if outs.contains dest then (h, [], .ok)
      else
        let h1 := h.set self (.inputPoint v (outs ++ [dest]))
        match h1.get? dest with
        | some (.gate g) =>
          if g.inputs.contains self then (h1, [], .ok)
          else call fuel .addInput dest self h1
        | some (.outputPoint _ _) => (h1, [], .typeError)
        | _ => (h1, [], .ok)
    | some (.gate g) =>
      -- LogicGate.addOutput (gates.js)
      if g.outputs.contains dest then (h, [], .ok)
      else
        let h1 := h.set self (.gate { g with outputs := g.outputs ++ [dest] })
        match h1.get? dest with
        | some (.gate g2) =>
          if g2.inputs.contains self then (h1, [], .ok)
          else call fuel .addInput dest self h1
        | some (.outputPoint _ _) => (h1, [], .typeError)
        | _ => (h1, [], .ok)
    | _ => (h, [], .typeError)
  | fuel+1, .addInput, self, src, h =>
    match h.get? self with
    | some (.gate g) =>
      -- LogicGate.addInput (gates.js)
      if g.inputs.length < g.maxInputs then
        if g.inputs.contains src then (h, [], .ok)
        else
          let h1 := h.set self (.gate { g with inputs := g.inputs ++ [src] })
          match h1.get? src with
          | some (.inputPoint _ _) | some (.gate _) => call fuel .addOutput src self h1
          | _ => (h1, [], .ok)
      else (h, [.errMaxInputs], .ok)
    | some (.outputPoint input _) =>
      -- OutputPoint.addInput (io.js)
      let tear : Heap × List LogMsg × Status :=
        match input with
        | some old =>
          if old = src then (h, [], .ok)
          else
            match h.get? old with
            | some (.inputPoint _ _) | some (.gate _) =>
              match call fuel .removeOutput old self h with
              | (h1, l1, st) => (h1, .warnReplacing :: l1, st)
            | _ => (h, [.warnReplacing], .ok)
        | none => (h, [], .ok)
      match tear with
      | (h1, l1, .ok) =>
        match h1.get? self with
        | some (.outputPoint _ v1) =>
          let h2 := h1.set self (.outputPoint (some src) v1)
          match h2.get? src with
          | some (.inputPoint _ outs) =>
            if outs.contains self then
              match opUpdate h2 self with
              | (h3, st) => (h3, l1, st)
            else
              match call fuel .addOutput src self h2 with
              | (h3, l3, .ok) =>
                match opUpdate h3 self with
                | (h4, st) => (h4, l1 ++ l3, st)
              | (h3, l3, e) => (h3, l1 ++ l3, e)
          | some (.gate g2) =>
            if g2.outputs.contains self then
              match opUpdate h2 self with
              | (h3, st) => (h3, l1, st)
            else
              match call fuel .addOutput src self h2 with
              | (h3, l3, .ok) =>
                match opUpdate h3 self with
                | (h4, st) => (h4, l1 ++ l3, st)
              | (h3, l3, e) => (h3, l1 ++ l3, e)
          | _ =>
            match opUpdate h2 self with
            | (h3, st) => (h3, l1, st)
        | _ => (h1, l1, .typeError)
      | (h1, l1, e) => (h1, l1, e)
    | _ => (h, [], .typeError)
  | fuel+1, .removeOutput, self, dest, h =>
    match h.get? self with
    | some (.inputPoint v outs) =>
      -- InputPoint.removeOutput (io.js)
      let h1 := h.set self (.inputPoint v (outs.filter (· != dest)))
      match h1.get? dest with
      | some (.gate _) | some (.outputPoint _ _) => call fuel .removeInput dest self h1
      | _ => (h1, [], .ok)
    | some (.gate g) =>
      -- LogicGate.removeOutput (gates.js)
      let h1 := h.set self (.gate { g with outputs := g.outputs.filter (· != dest) })
      match h1.get? dest with
      | some (.gate _) | some (.outputPoint _ _) => call fuel .removeInput dest self h1
      | _ => (h1, [], .ok)
    | _ => (h, [], .typeError)
  | fuel+1, .removeInput, self, src, h =>
    match h.get? self with
    | some (.gate g) =>
      -- LogicGate.removeInput (gates.js)
      let h1 := h.set self (.gate { g with inputs := g.inputs.filter (· != src) })
      match h1.get? src with
      | some (.inputPoint _ _) | some (.gate _) => call fuel .removeOutput src self h1
      | _ => (h1, [], .ok)
    | some (.outputPoint input _) =>
      -- OutputPoint.removeInput (io.js); note that it ignores its argument
      match input with
      | some old =>
        match h.get? old with
        | some (.inputPoint _ _) | some (.gate _) =>
          match call fuel .removeOutput old self h with
          | (h1, l1, .ok) =>
            match h1.get? self with
            | some (.outputPoint _ _) => (h1.set self (.outputPoint none LOW), l1, .ok)
            | _ => (h1, l1, .typeError)
          | (h1, l1, e) => (h1, l1, e)
        | _ => (h.set self (.outputPoint none LOW), [], .ok)
      | none => (h.set self (.outputPoint none LOW), [], .ok)
    | _ => (h, [], .typeError)

/-- The Simulation state (simulation.js): the owned component list and
the three tracked subsets, all holding heap references. -/
structure Sim where
  components : List Nat
  inputPoints : List Nat
  outputPoints : List Nat
  gates : List Nat
deriving DecidableEq, Repr

/-- Simulation.addComponent: insert into components when absent, then
classify by constructor name for InputPoint and OutputPoint.  The gate
branch of the source tests
`component instanceof Object.getPrototypeOf(this.gates).constructor`;
since this.gates is always a JS Array, that constructor is Array, and no
component is ever an Array, so the push into this.gates is dead code and
the gates subset is never extended. -/
def addComponent (h : Heap) (s : Sim) (c : Nat) : Sim :=
  if s.components.contains c then s
  else
    let s1 := { s with components := s.components ++ [c] }
    match h.get? c with
    | some (.inputPoint _ _) => { s1 with inputPoints := s1.inputPoints ++ [c] }
    | some (.outputPoint _ _) => { s1 with outputPoints := s1.outputPoints ++ [c] }
    | _ => s1

/-- One gate-evaluation sweep of Simulation.propagate: for each tracked
gate in order, remember getOutput(), call evaluate(), and record whether
the output changed; a non-gate entry would lack evaluate and throw. -/
def evalGates (h : Heap) (gs : List Nat) (changed : Bool) : Heap × Bool × Status :=
  match gs with
  | [] => (h, changed, .ok)
  | gid :: rest =>
    match h.get? gid with
    | some (.gate g) =>
      let newOutput := evaluate h g
      let h1 := h.set gid (.gate { g with outputValue := newOutput })
      evalGates h1 rest (changed || (newOutput != g.outputValue))
    | _ => (h, changed, .typeError)

/-- The value OutputPoint.update reads for a given slot: the source's
getOutput() when the slot is connected, LOW otherwise. -/
def readVal (h : Heap) (inp : Option Nat) : Nat :=
  match inp with
  | some j =>
    match h.get? j with
    | some c => getOutput c
    | none => LOW
  | none => LOW

/-- One sink-refresh sweep of Simulation.propagate: call update() on
every tracked output point in order; a non-OutputPoint entry would lack
update and throw. -/
def updateSinks (h : Heap) (ops : List Nat) : Heap × Status :=
  match ops with
  | [] => (h, .ok)
  | oid :: rest =>
    match h.get? oid with
    | some (.outputPoint input _) =>
      updateSinks (h.set oid (.outputPoint input (readVal h input))) rest
    | _ => (h, .typeError)

/-- The for-loop of Simulation.propagate: remaining iterations and the
loop counter i; each iteration evaluates all gates, refreshes all sinks,
and breaks when no gate output changed and i > 0. -/
def propagateAux (s : Sim) : Nat → Nat → Heap → Heap × Status
  | 0, _, h => (h, .ok)
  | r+1, i, h =>
    match evalGates h s.gates false with
    | (h1, changed, .ok) =>
      match updateSinks h1 s.outputPoints with
      | (h2, .ok) =>
        if changed = false ∧ 0 < i then (h2, .ok)
        else propagateAux s r (i + 1) h2
      | (h2, e) => (h2, e)
    | (h1, _, e) => (h1, e)

/-- Simulation.propagate: run the loop with
maxIterations = this.gates.length + 1 iterations available, then perform
the unconditional final sink refresh (skipped only if the loop threw,
since a JS exception would escape propagate). -/
def propagate (h : Heap) (s : Sim) : Heap × Status :=
  match propagateAux s (s.gates.length + 1) 0 h with
  | (h1, .ok) => updateSinks h1 s.outputPoints
  | (h1, e) => (h1, e)

/-- typeof component.addOutput === 'function': true exactly for
InputPoint and LogicGate. -/
def hasAddOutput (h : Heap) (i : Nat) : Bool :=
  match h.get? i with
  | some (.inputPoint _ _) => true
  | some (.gate _) => true
  | _ => false

/-- typeof component.addInput === 'function': true exactly for LogicGate
and OutputPoint. -/
def hasAddInput (h : Heap) (i : Nat) : Bool :=
  match h.get? i with
  | some (.gate _) => true
  | some (.outputPoint _ _) => true
  | _ => false

/-- Simulation.connect: reject with a console.error and return (before
any mutation and before propagation) when either endpoint is not in
this.components; when both endpoints are present, run
sourceComponent.addOutput(targetComponent) if the capability check
passes, else log a console.error — and in both of those cases fall
through to this.propagate(), which only a thrown exception skips. -/
def connect (fuel : Nat) (h : Heap) (s : Sim) (src tgt : Nat) :
    Heap × List LogMsg × Status :=
  if ¬ (s.components.contains src ∧ s.components.contains tgt) then
    (h, [.errNotRegistered], .ok)
  else
    if hasAddOutput h src ∧ hasAddInput h tgt then
      match call fuel .addOutput src tgt h with
      | (h1, l1, .ok) =>
        match propagate h1 s with
        | (h2, st) => (h2, l1, st)
      | (h1, l1, e) => (h1, l1, e)
    else
      match propagate h s with
      | (h2, st) => (h2, [.errBadEndpoints], st)

/-- InputPoint.setValue (io.js): accept only HIGH or LOW, otherwise log
a console.error and leave the value unchanged. -/
def setValue (h : Heap) (i : Nat) (newValue : Nat) : Heap × List LogMsg × Status :=
  match h.get? i with
  | some (.inputPoint _ outs) =>
    if newValue = HIGH ∨ newValue = LOW then
      (h.set i (.inputPoint newValue outs), [], .ok)
    else (h, [.errInvalidValue], .ok)
  | _ => (h, [], .typeError)

/-- The forEach in removeComponent that calls removeInput(component) on
every listed downstream connection that has that method.  Iterating a
snapshot of the list is observationally equal to the live-array forEach
of JS here: when no element has removeInput nothing mutates, and the
first element that has it never returns (see the divergence lemmas). -/
def removeInputLoop (fuel : Nat) (h : Heap) (targets : List Nat) (c : Nat) :
    Heap × Status :=
  match targets with
  | [] => (h, .ok)
  | t :: rest =>
    match h.get? t with
    | some (.gate _) | some (.outputPoint _ _) =>
      match call fuel .removeInput t c h with
      | (h1, _, .ok) => removeInputLoop fuel h1 rest c
      | (h1, _, e) => (h1, e)
    | _ => removeInputLoop fuel h rest c

/-- The forEach in removeComponent that calls removeOutput(component) on
every listed upstream source that has that method. -/
def removeOutputLoop (fuel : Nat) (h : Heap) (sources : List Nat) (c : Nat) :
    Heap × Status :=
  match sources with
  | [] => (h, .ok)
  | t :: rest =>
    match h.get? t with
    | some (.gate _) | some (.inputPoint _ _) =>
      match call fuel .removeOutput t c h with
      | (h1, _, .ok) => removeOutputLoop fuel h1 rest c
      | (h1, _, e) => (h1, e)
    | _ => removeOutputLoop fuel h rest c

/-- Simulation.removeComponent: filter the component out of the owned
list, then per kind filter it out of its subset, detach its neighbours
through their removeInput/removeOutput methods, and clear its own link
fields; mutations performed before a thrown exception persist. -/
def removeComponent (fuel : Nat) (h : Heap) (s : Sim) (c : Nat) :
    Sim × Heap × Status :=
  let s1 := { s with components := s.components.filter (· != c) }
  match h.get? c with
  | some (.inputPoint _ outs) =>
    let s2 := { s1 with inputPoints := s1.inputPoints.filter (· != c) }
    match removeInputLoop fuel h outs c with
    | (h1, .ok) =>
      match h1.get? c with
      | some (.inputPoint v1 _) => (s2, h1.set c (.inputPoint v1 []), .ok)
      | _ => (s2, h1, .typeError)
    | (h1, e) => (s2, h1, e)
  | some (.outputPoint input _) =>
    let s2 := { s1 with outputPoints := s1.outputPoints.filter (· != c) }
    match input with
    | some old =>
      match h.get? old with
      | some (.inputPoint _ _) | some (.gate _) =>
        match call fuel .removeOutput old c h with
        | (h1, _, .ok) =>
          match h1.get? c with
          | some (.outputPoint _ v1) => (s2, h1.set c (.outputPoint none v1), .ok)
          | _ => (s2, h1, .typeError)
        | (h1, _, e) => (s2, h1, e)
      | _ =>
        match h.get? c with
        | some (.outputPoint _ v1) => (s2, h.set c (.outputPoint none v1), .ok)
        | _ => (s2, h, .typeError)
    | none =>
      match h.get? c with
      | some (.outputPoint _ v1) => (s2, h.set c (.outputPoint none v1), .ok)
      | _ => (s2, h, .typeError)
  | some (.gate g) =>
    let s2 := { s1 with gates := s1.gates.filter (· != c) }
    match removeOutputLoop fuel h g.inputs c with
    | (h1, .ok) =>
      let h2 := match h1.get? c with
        | some (.gate g1) => h1.set c (.gate { g1 with inputs := [] })
        | _ => h1
      match h2.get? c with
      | some (.gate g2) =>
        match removeInputLoop fuel h2 g2.outputs c with
        | (h3, .ok) =>
          match h3.get? c with
          | some (.gate g3) => (s2, h3.set c (.gate { g3 with outputs := [] }), .ok)
          | _ => (s2, h3, .typeError)
        | (h3, e) => (s2, h3, e)
      | _ => (s2, h2, .typeError)
    | (h1, e) => (s2, h1, e)
  | none => (s1, h, .ok)

/-- The NOT→AND scenario heap: 0 = InputA (LOW), 1 = InputB (LOW),
2 = Not1, 3 = And1, 4 = OutputX. -/
def notAndHeap : Heap :=
  [.inputPoint 0 [], .inputPoint 0 [],
   .gate ⟨.notK, [], 0, [], 1⟩, .gate ⟨.andK, [], 0, [], 2⟩,
   .outputPoint none 0]

/-- Registering the five scenario components in order. -/
def notAndSim : Sim :=
  addComponent notAndHeap (addComponent notAndHeap (addComponent notAndHeap
    (addComponent notAndHeap (addComponent notAndHeap ⟨[], [], [], []⟩ 0) 1) 2) 3) 4

/-- Scenario wiring: connect InputA→Not1, Not1→And1, InputB→And1. -/
def notAndWired : Heap × List LogMsg × Status :=
  connect 20 (connect 20 (connect 20 notAndHeap notAndSim 0 2).1 notAndSim 2 3).1
    notAndSim 1 3

/-- The scenario's fourth wiring step: connect And1→OutputX. -/
def notAndStep4 : Heap × List LogMsg × Status :=
  connect 20 notAndWired.1 notAndSim 3 4

/-- Driving the scenario to its end regardless of the exception: set
InputA=HIGH, propagate; set InputB=HIGH, propagate; set InputA=LOW,
propagate. -/
def notAndFinal : Heap :=
  (propagate (setValue (propagate (setValue (propagate
    (setValue notAndStep4.1 0 HIGH).1 notAndSim).1 1 HIGH).1 notAndSim).1
    0 LOW).1 notAndSim).1

/-- C1 (code bug): the scenario cannot run as specified.  The connect
of And1 to OutputX throws a TypeError (LogicGate.addOutput reads
destination.inputs, which OutputPoint does not have), so OutputX is
never linked; moreover the gates subset is empty (see the addComponent
bug), so Not1 is never evaluated, and at the end of the scenario Not1's
cached output and OutputX's value are both LOW where the claim (and the
repository's own tests) require HIGH. -/
theorem notAndScenario_code_bug :
    notAndStep4.2.2 = Status.typeError ∧
    notAndFinal.get? 4 = some (.outputPoint none LOW) ∧
    notAndFinal.get? 2 = some (.gate ⟨.notK, [0], LOW, [3], 1⟩) := by
  refine ⟨by decide, by decide, by decide⟩

/-- C2 (code bug): adding a gate through the Registry inserts it into
the owned set but never into the gates subset — the source's guard
`component instanceof Object.getPrototypeOf(this.gates).constructor`
is an instanceof-Array test that no component passes — while input and
output points are classified correctly. -/
theorem addComponent_gate_code_bug :
    (addComponent [.gate ⟨.andK, [], 0, [], 2⟩] ⟨[], [], [], []⟩ 0).components = [0] ∧
    (addComponent [.gate ⟨.andK, [], 0, [], 2⟩] ⟨[], [], [], []⟩ 0).gates = [] ∧
    (addComponent [.inputPoint 0 []] ⟨[], [], [], []⟩ 0).inputPoints = [0] ∧
    (addComponent [.outputPoint none 0] ⟨[], [], [], []⟩ 0).outputPoints = [0] := by
  refine ⟨rfl, rfl, rfl, rfl⟩

/-- Setting an index to the value it already holds leaves a list
unchanged. -/
theorem list_set_same {α : Type} (l : List α) (i : Nat) (a : α)
    (hl : l.get? i = some a) : l.set i a = l := by
  induction l generalizing i with
  | nil => simp at hl
  | cons x xs ih =>
    cases i with
    | zero =>
      simp only [List.get?] at hl
      cases hl
      rfl
    | succ n =>
      simp only [List.get?] at hl
      simp [List.set, ih n hl]

/-- List.set commutes with List.map. -/
theorem list_map_set {α β : Type} (f : α → β) (l : List α) (i : Nat) (a : α) :
    (l.set i a).map f = (l.map f).set i (f a) := by
  induction l generalizing i with
  | nil => rfl
  | cons x xs ih =>
    cases i with
    | zero => rfl
    | succ n => simp [List.set, ih n]

/-- List.get? commutes with List.map. -/
theorem list_get_map {α β : Type} (f : α → β) (l : List α) (i : Nat) :
    (l.map f).get? i = (l.get? i).map f := by
  induction l generalizing i with
  | nil => rfl
  | cons x xs ih =>
    cases i with
    | zero => rfl
    | succ n => simp [ih n]

/-- The link fields of a component: upstream list, single slot,
downstream list. -/
def compLinks : Component → List Nat × Option Nat × List Nat
  | .inputPoint _ outs => ([], none, outs)
  | .outputPoint inp _ => ([], inp, [])
  | .gate g => (g.inputs, none, g.outputs)

/-- The link fields of every heap cell. -/
def heapLinks (h : Heap) : List (List Nat × Option Nat × List Nat) :=
  h.map compLinks

/-- Overwriting a cell with a component that has the same link fields
preserves heapLinks. -/
theorem heapLinks_set_same (h : Heap) (i : Nat) (c c2 : Component)
    (hc : h.get? i = some c) (hl : compLinks c2 = compLinks c) :
    heapLinks (h.set i c2) = heapLinks h := by
  unfold heapLinks
  rw [list_map_set, hl]
  apply list_set_same
  rw [list_get_map, hc]
  rfl

/-- The gate-evaluation sweep changes only cached outputs, never link
fields. -/
theorem evalGates_links (gs : List Nat) (h : Heap) (b : Bool) :
    heapLinks (evalGates h gs b).1 = heapLinks h := by
  induction gs generalizing h b with
  | nil => rfl
  | cons gid rest ih =>
    unfold evalGates
    cases hg : h.get? gid with
    | none => rfl
    | some c =>
      cases c with
      | inputPoint v outs => rfl
      | outputPoint inp v => rfl
      | gate g =>
        simp only
        rw [ih]
        exact heapLinks_set_same h gid (.gate g) _ hg rfl

/-- The sink-refresh sweep changes only cached values, never link
fields. -/
theorem updateSinks_links (ops : List Nat) (h : Heap) :
    heapLinks (updateSinks h ops).1 = heapLinks h := by
  induction ops generalizing h with
  | nil => rfl
  | cons oid rest ih =>
    unfold updateSinks
    cases hg : h.get? oid with
    | none => rfl
    | some c =>
      cases c with
      | inputPoint v outs => rfl
      | outputPoint inp v =>
        simp only
        rw [ih]
        exact heapLinks_set_same h oid (.outputPoint inp v) _ hg rfl
      | gate g => rfl

/-- The propagation loop never changes link fields. -/
theorem propagateAux_links (s : Sim) (r i : Nat) (h : Heap) :
    heapLinks (propagateAux s r i h).1 = heapLinks h := by
  induction r generalizing i h with
  | zero => rfl
  | succ r ih =>
    unfold propagateAux
    rcases he : evalGates h s.gates false with ⟨h1, changed, st⟩
    have hl1 : heapLinks h1 = heapLinks h := by
      have := evalGates_links s.gates h false
      rw [he] at this
      exact this
    cases st with
    | ok =>
      simp only
      rcases hu : updateSinks h1 s.outputPoints with ⟨h2, st2⟩
      have hl2 : heapLinks h2 = heapLinks h1 := by
        have := updateSinks_links s.outputPoints h1
        rw [hu] at this
        exact this
      cases st2 with
      | ok =>
        simp only
        by_cases hcond : changed = false ∧ 0 < i
        · rw [if_pos hcond]
          rw [hl2, hl1]
        · rw [if_neg hcond, ih, hl2, hl1]
      | typeError => simpa using hl2.trans hl1
      | overflow => simpa using hl2.trans hl1
    | typeError => simpa using hl1
    | overflow => simpa using hl1

/-- Simulation.propagate never changes link fields. -/
theorem propagate_links (h : Heap) (s : Sim) :
    heapLinks (propagate h s).1 = heapLinks h := by
  unfold propagate
  rcases ha : propagateAux s (s.gates.length + 1) 0 h with ⟨h1, st⟩
  have hl1 : heapLinks h1 = heapLinks h := by
    have := propagateAux_links s (s.gates.length + 1) 0 h
    rw [ha] at this
    exact this
  cases st with
  | ok =>
    simp only
    rw [updateSinks_links, hl1]
  | typeError => simpa using hl1
  | overflow => simpa using hl1

/-- C3 (amended): connect with an unregistered endpoint reports an
error and is a complete no-op; connect whose endpoints are registered
but lack the required capability reports an error and changes no link
field, but still runs a full propagation pass, which may refresh cached
sink values (so it is not a no-op on cached signals). -/
theorem connect_failure_amended :
    (∀ (fuel : Nat) (h : Heap) (s : Sim) (src tgt : Nat),
      ¬ (s.components.contains src ∧ s.components.contains tgt) →
      connect fuel h s src tgt = (h, [.errNotRegistered], .ok)) ∧
    (∀ (fuel : Nat) (h : Heap) (s : Sim) (src tgt : Nat),
      (s.components.contains src ∧ s.components.contains tgt) →
      ¬ (hasAddOutput h src ∧ hasAddInput h tgt) →
      connect fuel h s src tgt =
        ((propagate h s).1, [.errBadEndpoints], (propagate h s).2) ∧
      heapLinks (connect fuel h s src tgt).1 = heapLinks h) := by
  constructor
  · intro fuel h s src tgt hmem
    unfold connect
    rw [if_pos hmem]
  · intro fuel h s src tgt hmem hcap
    have hc : connect fuel h s src tgt =
        ((propagate h s).1, [.errBadEndpoints], (propagate h s).2) := by
      unfold connect
      rw [if_neg (by simpa using hmem), if_neg hcap]
    refine ⟨hc, ?_⟩
    rw [hc]
    exact propagate_links h s

/-- Witness for the amended C3: connecting two unregistered ids in an
empty simulation reports the membership error and changes nothing. -/
theorem connect_failure_amended_witness :
    connect 5 [] ⟨[], [], [], []⟩ 0 1 = ([], [.errNotRegistered], .ok) :=
  connect_failure_amended.1 5 [] ⟨[], [], [], []⟩ 0 1 (by decide)

/-- A state with a stale sink: two HIGH inputs feed an AND gate whose
cached output is HIGH, the sink's slot points at the gate but its
cached value is still LOW. -/
def staleSinkHeap : Heap :=
  [.inputPoint 1 [2], .inputPoint 1 [2],
   .gate ⟨.andK, [0, 1], 1, [3], 2⟩, .outputPoint (some 2) 0]

/-- The matching registration state. -/
def staleSinkSim : Sim := ⟨[0, 1, 2, 3], [0, 1], [3], []⟩

/-- C3 counterexample: connect(OutputX, And) fails the capability check
(an OutputPoint has no addOutput), the error is reported — yet the
operation is not a no-op: the trailing propagate still runs and changes
the sink's cached value from LOW to HIGH. -/
theorem connect_failure_not_noop_cex :
    staleSinkHeap.get? 3 = some (.outputPoint (some 2) LOW) ∧
    (connect 20 staleSinkHeap staleSinkSim 3 2).2.1 = [.errBadEndpoints] ∧
    (connect 20 staleSinkHeap staleSinkSim 3 2).1.get? 3 =
      some (.outputPoint (some 2) HIGH) := by
  refine ⟨by decide, by decide, by decide⟩

/-- Reading an index other than the one just written is unchanged. -/
theorem list_get_set_ne {α : Type} (l : List α) (i j : Nat) (a : α)
    (hij : i ≠ j) : (l.set i a).get? j = l.get? j := by
  induction l generalizing i j with
  | nil => rfl
  | cons x xs ih =>
    cases i with
    | zero =>
      cases j with
      | zero => exact absurd rfl hij
      | succ m => rfl
    | succ n =>
      cases j with
      | zero => rfl
      | succ m =>
        simp only [List.set, List.get?]
        exact ih n m fun e => hij (by rw [e])

/-- Reading the index just written yields the written value, provided
the index was in range. -/
theorem list_get_set_eq {α : Type} (l : List α) (i : Nat) (a b : α)
    (hl : l.get? i = some b) : (l.set i a).get? i = some a := by
  induction l generalizing i with
  | nil => simp at hl
  | cons x xs ih =>
    cases i with
    | zero => rfl
    | succ n =>
      simp only [List.get?] at hl
      simp only [List.set, List.get?]
      exact ih n hl

/-- The unguarded mutual recursion of LogicGate.removeOutput and
OutputPoint.removeInput: when a sink's slot points at a gate, tearing
that link down never terminates — each side calls the other back
unconditionally, so every fuel bound is exhausted (a JS stack
overflow). -/
theorem remove_diverges_gate_sink (a b : Nat) :
    ∀ (f : Nat) (h : Heap) (x : Nat),
      (∃ g, h.get? a = some (.gate g)) →
      (∃ v, h.get? b = some (.outputPoint (some a) v)) →
      (call f .removeOutput a b h).2.2 = .overflow ∧
      (call f .removeInput b x h).2.2 = .overflow := by
  intro f
  induction f with
  | zero => intro h x hg hb; exact ⟨rfl, rfl⟩
  | succ f ih =>
    intro h x hg hb
    obtain ⟨g, hg⟩ := hg
    obtain ⟨v, hb⟩ := hb
    have hab : a ≠ b := by
      intro e
      rw [e, hb] at hg
      cases hg
    constructor
    · -- LogicGate.removeOutput(a, b) filters and calls back removeInput
      have hset1 : (h.set a (.gate { g with outputs := g.outputs.filter (· != b) })).get? b
          = some (.outputPoint (some a) v) := by
        rw [list_get_set_ne h a b _ hab, hb]
      have hset2 : (h.set a (.gate { g with outputs := g.outputs.filter (· != b) })).get? a
          = some (.gate { g with outputs := g.outputs.filter (· != b) }) :=
        list_get_set_eq h a _ _ hg
      have := (ih (h.set a (.gate { g with outputs := g.outputs.filter (· != b) })) a
        ⟨_, hset2⟩ ⟨_, hset1⟩).2
      simp only [call, hg, hset1]
      exact this
    · -- OutputPoint.removeInput(b) reads its slot and calls back removeOutput
      have := (ih h x ⟨g, hg⟩ ⟨v, hb⟩).1
      rcases hcall : call f .removeOutput a b h with ⟨h1, l1, st⟩
      rw [hcall] at this
      simp only at this
      subst this
      simp only [call, hb, hg, hcall]

/-- The unguarded mutual recursion of InputPoint.removeOutput and
LogicGate.removeInput: detaching an input point from a gate never
terminates either. -/
theorem remove_diverges_ip_gate (a b : Nat) :
    ∀ (f : Nat) (h : Heap),
      (∃ v outs, h.get? a = some (.inputPoint v outs)) →
      (∃ g, h.get? b = some (.gate g)) →
      (call f .removeOutput a b h).2.2 = .overflow ∧
      (call f .removeInput b a h).2.2 = .overflow := by
  intro f
  induction f with
  | zero => intro h hi hg; exact ⟨rfl, rfl⟩
  | succ f ih =>
    intro h hi hg
    obtain ⟨v, outs, hi⟩ := hi
    obtain ⟨g, hg⟩ := hg
    have hab : a ≠ b := by
      intro e
      rw [e, hg] at hi
      cases hi
    constructor
    · -- InputPoint.removeOutput(a, b) filters and calls back removeInput
      have hset1 : (h.set a (.inputPoint v (outs.filter (· != b)))).get? b
          = some (.gate g) := by
        rw [list_get_set_ne h a b _ hab, hg]
      have hset2 : (h.set a (.inputPoint v (outs.filter (· != b)))).get? a
          = some (.inputPoint v (outs.filter (· != b))) :=
        list_get_set_eq h a _ _ hi
      have := (ih (h.set a (.inputPoint v (outs.filter (· != b))))
        ⟨_, _, hset2⟩ ⟨_, hset1⟩).2
      simp only [call, hi, hset1]
      exact this
    · -- LogicGate.removeInput(b, a) filters and calls back removeOutput
      have hset1 : (h.set b (.gate { g with inputs := g.inputs.filter (· != a) })).get? a
          = some (.inputPoint v outs) := by
        rw [list_get_set_ne h b a _ (Ne.symm hab), hi]
      have hset2 : (h.set b (.gate { g with inputs := g.inputs.filter (· != a) })).get? b
          = some (.gate { g with inputs := g.inputs.filter (· != a) }) :=
        list_get_set_eq h b _ _ hg
      have := (ih (h.set b (.gate { g with inputs := g.inputs.filter (· != a) }))
        ⟨_, _, hset1⟩ ⟨_, hset2⟩).1
      simp only [call, hg, hset1]
      exact this

/-- A sink whose single slot is occupied by gate 0, and a second gate 2
to connect in its place. -/
def occupiedSinkHeap : Heap :=
  [.gate ⟨.andK, [], 0, [1], 2⟩, .outputPoint (some 0) 0,
   .gate ⟨.andK, [], 0, [], 2⟩]

/-- C7 (code bug): connecting a new source to an OutputPoint whose slot
is occupied does warn, but the documented replace-with-warning teardown
never completes: OutputPoint.addInput calls the old source's
removeOutput, which calls back removeInput, which reads the still-set
slot and calls removeOutput again — unbounded mutual recursion, so the
call aborts by stack exhaustion for every stack budget instead of
replacing the connection. -/
theorem outputPoint_replace_code_bug (fuel : Nat) :
    (call fuel .addInput 1 2 occupiedSinkHeap).2.2 = .overflow := by
  cases fuel with
  | zero => rfl
  | succ f =>
    have hdiv := (remove_diverges_gate_sink 0 1 f occupiedSinkHeap 1
      ⟨_, rfl⟩ ⟨_, rfl⟩).1
    rcases hcall : call f .removeOutput 0 1 occupiedSinkHeap with ⟨h1, l1, st⟩
    rw [hcall] at hdiv
    simp only at hdiv
    subst hdiv
    have e1 : occupiedSinkHeap.get? 1 = some (.outputPoint (some 0) 0) := rfl
    have e0 : occupiedSinkHeap.get? 0 = some (.gate ⟨.andK, [], 0, [1], 2⟩) := rfl
    simp only [call, e1, e0, hcall]
    rfl

/-- Witness instantiation for C7 at a concrete stack budget. -/
theorem outputPoint_replace_code_bug_witness :
    (call 40 .addInput 1 2 occupiedSinkHeap).2.2 = .overflow :=
  outputPoint_replace_code_bug 40

/-- An input point 0 feeding a NOT gate 1, both registered — the exact
shape of the repository's removeComponent test. -/
def connectedPairHeap : Heap :=
  [.inputPoint 1 [1], .gate ⟨.notK, [0], 0, [], 1⟩]

/-- The matching registration state (gates is empty per addComponent). -/
def connectedPairSim : Sim := ⟨[0, 1], [0], [], []⟩

/-- C8 (code bug): removing a component that still has a live link never
completes.  removeComponent asks the neighbour to detach via
removeOutput/removeInput, and those two methods call each other back
without any membership guard, so the teardown recurses unboundedly and
the removal aborts by stack exhaustion for every stack budget; no state
in which the claimed no-dangling-reference postcondition could be
checked is ever reached. -/
theorem removeComponent_dangling_code_bug (fuel : Nat) :
    (removeComponent fuel connectedPairHeap connectedPairSim 1).2.2 = .overflow := by
  have hdiv := (remove_diverges_ip_gate 0 1 fuel connectedPairHeap
    ⟨_, _, rfl⟩ ⟨_, rfl⟩).1
  rcases hcall : call fuel .removeOutput 0 1 connectedPairHeap with ⟨h1, l1, st⟩
  rw [hcall] at hdiv
  simp only at hdiv
  subst hdiv
  have e1 : connectedPairHeap.get? 1 = some (.gate ⟨.notK, [0], 0, [], 1⟩) := rfl
  have e0 : connectedPairHeap.get? 0 = some (.inputPoint 1 [1]) := rfl
  simp only [removeComponent, e1, removeOutputLoop, e0, hcall]

/-- Witness instantiation for C8 at a concrete stack budget. -/
theorem removeComponent_dangling_code_bug_witness :
    (removeComponent 40 connectedPairHeap connectedPairSim 1).2.2 = .overflow :=
  removeComponent_dangling_code_bug 40

/-- Modelled from the spec's words (§4.3): one full pass = evaluate
every tracked gate in order, note whether any cached output changed,
then refresh every sink. -/
def propPass (h : Heap) (s : Sim) : Heap × Bool × Status :=
  match evalGates h s.gates false with
  | (h1, changed, Status.ok) =>
    match updateSinks h1 s.outputPoints with
    | (h2, st) => (h2, changed, st)
  | (h1, changed, e) => (h1, changed, e)

/-- Modelled from the spec's words: stop early exactly when a full pass
produced zero gate-output changes and it is not the first pass. -/
def earlyExit (changed : Bool) (i : Nat) : Prop := changed = false ∧ 0 < i

instance (changed : Bool) (i : Nat) : Decidable (earlyExit changed i) := by
  unfold earlyExit
  infer_instance

/-- Modelled from the spec's words: repeat up to the given number of
passes, counting the pass index i from 0, exiting on earlyExit. -/
def specLoop (s : Sim) : Nat → Nat → Heap → Heap × Status
  | 0, _, h => (h, .ok)
  | r+1, i, h =>
    match propPass h s with
    | (h2, changed, Status.ok) =>
      if earlyExit changed i then (h2, .ok) else specLoop s r (i + 1) h2
    | (h2, _, e) => (h2, e)

/-- Modelled from the spec's words (§4.3): maxIterations = number of
tracked gates + 1, run up to maxIterations passes with the early exit,
then one unconditional final sink refresh (an exception escaping the
loop skips it). -/
def propagateSpec (h : Heap) (s : Sim) : Heap × Status :=
  let maxIterations := s.gates.length + 1
  match specLoop s maxIterations 0 h with
  | (h1, Status.ok) => updateSinks h1 s.outputPoints
  | (h1, e) => (h1, e)

/-- The source's loop agrees with the spec's loop at every fuel and
pass index. -/
theorem propagateAux_eq_specLoop (s : Sim) (r i : Nat) (h : Heap) :
    propagateAux s r i h = specLoop s r i h := by
  induction r generalizing i h with
  | zero => rfl
  | succ r ih =>
    unfold propagateAux specLoop propPass earlyExit
    rcases evalGates h s.gates false with ⟨h1, changed, st⟩
    cases st with
    | ok =>
      simp only
      rcases updateSinks h1 s.outputPoints with ⟨h2, st2⟩
      cases st2 with
      | ok =>
        simp only
        by_cases hc : changed = false ∧ 0 < i
        · rw [if_pos hc, if_pos hc]
        · rw [if_neg hc, if_neg hc, ih]
      | typeError => rfl
      | overflow => rfl
    | typeError => rfl
    | overflow => rfl

/-- C4: each propagate() call runs exactly the algorithm of the spec —
maxIterations = number of tracked gates + 1, up to that many passes
each evaluating every tracked gate in registration order and then
refreshing every sink, early exit from the loop exactly when a full
pass produced zero gate-output changes and it is not the first pass,
and one unconditional final sink refresh after the loop. -/
theorem propagate_follows_spec (h : Heap) (s : Sim) :
    propagate h s = propagateSpec h s := by
  unfold propagate propagateSpec
  rw [propagateAux_eq_specLoop]

/-- Witness instantiation for C4 on a concrete one-gate circuit. -/
theorem propagate_follows_spec_witness :
    propagate [.inputPoint 1 [1], .gate ⟨.notK, [0], 0, [], 1⟩, .outputPoint (some 1) 0]
        ⟨[0, 1, 2], [0], [2], [1]⟩ =
      propagateSpec [.inputPoint 1 [1], .gate ⟨.notK, [0], 0, [], 1⟩, .outputPoint (some 1) 0]
        ⟨[0, 1, 2], [0], [2], [1]⟩ :=
  propagate_follows_spec _ _

/-- A heap cell that is not an OutputPoint (or is absent). -/
def notSinkAt (h : Heap) (j : Nat) : Bool :=
  match h.get? j with
  | some (.outputPoint _ _) => false
  | _ => true

/-- A tracked sink id that is an OutputPoint whose slot does not point
at another OutputPoint. -/
def sinkOk (h : Heap) (i : Nat) : Prop :=
  ∃ inp v, h.get? i = some (.outputPoint inp v) ∧
    ∀ j, inp = some j → notSinkAt h j = true

/-- Every tracked sink is a well-formed sink: true of every state wired
exclusively through the Registry interface. -/
def sinksWF (h : Heap) (ops : List Nat) : Prop := ∀ i ∈ ops, sinkOk h i

/-- Characterization of one sink-refresh sweep over well-formed sinks:
it succeeds, leaves every non-sink cell untouched, and rewrites each
swept sink's cached value to the value read from the original heap
(reads only touch non-sink cells, which the sweep never writes). -/
theorem updateSinks_char (ops : List Nat) :
    ∀ h : Heap, sinksWF h ops →
      (updateSinks h ops).2 = Status.ok ∧
      (∀ j, notSinkAt h j = true → (updateSinks h ops).1.get? j = h.get? j) ∧
      (∀ i inp v, h.get? i = some (.outputPoint inp v) →
        ∃ v2, (updateSinks h ops).1.get? i = some (.outputPoint inp v2) ∧
          (i ∉ ops → v2 = v) ∧
          (i ∈ ops → (∀ j, inp = some j → notSinkAt h j = true) →
            v2 = readVal h inp)) := by
  induction ops with
  | nil =>
    intro h _
    refine ⟨rfl, fun j _ => rfl, fun i inp v hi => ⟨v, hi, fun _ => rfl, ?_⟩⟩
    intro hmem
    exact absurd hmem (List.not_mem_nil i)
  | cons o rest ih =>
    intro h hwf
    obtain ⟨inpO, vO, hO, hOin⟩ := hwf o (List.mem_cons_self o rest)
    have hstep : updateSinks h (o :: rest) =
        updateSinks (h.set o (.outputPoint inpO (readVal h inpO))) rest := by
      conv_lhs => unfold updateSinks
      rw [hO]
    set h2 := h.set o (.outputPoint inpO (readVal h inpO)) with hh2
    have hgetO : h2.get? o = some (.outputPoint inpO (readVal h inpO)) :=
      list_get_set_eq h o _ _ hO
    have hgetNe : ∀ j, j ≠ o → h2.get? j = h.get? j :=
      fun j hj => list_get_set_ne h o j _ (fun e => hj e.symm)
    have hsinkO : notSinkAt h o = false := by
      unfold notSinkAt
      rw [hO]
    have hNSpres : ∀ j, notSinkAt h j = true → notSinkAt h2 j = true := by
      intro j hj
      have hjo : j ≠ o := by
        intro e
        rw [e, hsinkO] at hj
        cases hj
      unfold notSinkAt
      rw [hgetNe j hjo]
      exact hj
    have hRVpres : ∀ inp : Option Nat,
        (∀ j, inp = some j → notSinkAt h j = true) →
        readVal h2 inp = readVal h inp := by
      intro inp hns
      cases inp with
      | none => rfl
      | some j =>
        have hjo : j ≠ o := by
          intro e
          have := hns j rfl
          rw [e, hsinkO] at this
          cases this
        simp only [readVal, hgetNe j hjo]
    have hwf2 : sinksWF h2 rest := by
      intro i hi
      obtain ⟨inp, v, hcell, hns⟩ := hwf i (List.mem_cons_of_mem o hi)
      by_cases hio : i = o
      · subst hio
        exact ⟨inpO, readVal h inpO, hgetO, fun j hj => hNSpres j (hOin j hj)⟩
      · exact ⟨inp, v, by rw [hgetNe i hio]; exact hcell,
          fun j hj => hNSpres j (hns j hj)⟩
    obtain ⟨ihok, ihframe, ihval⟩ := ih h2 hwf2
    refine ⟨by rw [hstep]; exact ihok, ?_, ?_⟩
    · intro j hj
      have hjo : j ≠ o := by
        intro e
        rw [e, hsinkO] at hj
        cases hj
      rw [hstep, ihframe j (hNSpres j hj), hgetNe j hjo]
    · intro i inp v hi
      by_cases hio : i = o
      · subst hio
        rw [hO] at hi
        injection hi with hi2
        injection hi2 with ha hb
        rw [← ha]
        obtain ⟨v2, hget2, hnotin, hin⟩ := ihval i inpO (readVal h inpO) hgetO
        have hv2 : v2 = readVal h inpO := by
          by_cases hmem : i ∈ rest
          · rw [hin hmem (fun j hj => hNSpres j (hOin j hj))]
            exact hRVpres inpO hOin
          · exact hnotin hmem
        refine ⟨v2, by rw [hstep]; exact hget2, ?_, ?_⟩
        · intro hni
          exact absurd (List.mem_cons_self i rest) hni
        · intro _ _
          rw [hv2]
      · have hcell2 : h2.get? i = some (.outputPoint inp v) := by
          rw [hgetNe i hio]
          exact hi
        obtain ⟨v2, hget2, hnotin, hin⟩ := ihval i inp v hcell2
        refine ⟨v2, by rw [hstep]; exact hget2, ?_, ?_⟩
        · intro hni
          exact hnotin (fun hmem => hni (List.mem_cons_of_mem o hmem))
        · intro hmem hns
          have hmem2 : i ∈ rest := by
            rcases List.mem_cons.mp hmem with he | hm
            · exact absurd he hio
            · exact hm
          rw [hin hmem2 (fun j hj => hNSpres j (hns j hj))]
          exact hRVpres inp hns

/-- Well-formedness of the tracked sinks survives a sink-refresh sweep. -/
theorem sinksWF_updateSinks (h : Heap) (ops : List Nat) (hwf : sinksWF h ops) :
    sinksWF (updateSinks h ops).1 ops := by
  obtain ⟨_, hframe, hval⟩ := updateSinks_char ops h hwf
  intro i hi
  obtain ⟨inp, v, hcell, hns⟩ := hwf i hi
  obtain ⟨v2, hget2, _, _⟩ := hval i inp v hcell
  refine ⟨inp, v2, hget2, ?_⟩
  intro j hj
  have := hns j hj
  unfold notSinkAt
  rw [hframe j this]
  unfold notSinkAt at this
  exact this

/-- A second sink-refresh sweep over well-formed sinks changes nothing:
every value it would write is the value already written, because all
reads go through non-sink cells that the first sweep left untouched. -/
theorem updateSinks_idem (h : Heap) (ops : List Nat) (hwf : sinksWF h ops) :
    updateSinks (updateSinks h ops).1 ops = ((updateSinks h ops).1, Status.ok) := by
  obtain ⟨hok, hframe, hval⟩ := updateSinks_char ops h hwf
  have hwfH := sinksWF_updateSinks h ops hwf
  obtain ⟨hok2, hframe2, hval2⟩ := updateSinks_char ops (updateSinks h ops).1 hwfH
  have hreads : ∀ inp : Option Nat,
      (∀ j, inp = some j → notSinkAt h j = true) →
      readVal (updateSinks h ops).1 inp = readVal h inp := by
    intro inp hns
    cases inp with
    | none => rfl
    | some j =>
      simp only [readVal, hframe j (hns j rfl)]
  have hheap : (updateSinks (updateSinks h ops).1 ops).1 = (updateSinks h ops).1 := by
    apply List.ext_get?
    intro n
    cases hn : h.get? n with
    | none =>
      have hns : notSinkAt h n = true := by
        unfold notSinkAt
        rw [hn]
      have h1 := hframe n hns
      have hns2 : notSinkAt (updateSinks h ops).1 n = true := by
        unfold notSinkAt
        rw [h1]
        unfold notSinkAt at hns
        exact hns
      rw [hframe2 n hns2, h1]
    | some c =>
      cases c with
      | inputPoint v outs =>
        have hns : notSinkAt h n = true := by
          unfold notSinkAt
          rw [hn]
        have h1 := hframe n hns
        have hns2 : notSinkAt (updateSinks h ops).1 n = true := by
          unfold notSinkAt
          rw [h1]
          unfold notSinkAt at hns
          exact hns
        rw [hframe2 n hns2, h1]
      | gate g =>
        have hns : notSinkAt h n = true := by
          unfold notSinkAt
          rw [hn]
        have h1 := hframe n hns
        have hns2 : notSinkAt (updateSinks h ops).1 n = true := by
          unfold notSinkAt
          rw [h1]
          unfold notSinkAt at hns
          exact hns
        rw [hframe2 n hns2, h1]
      | outputPoint inp v =>
        obtain ⟨v2, hget2, hno, hyes⟩ := hval n inp v hn
        obtain ⟨v3, hget3, hno2, hyes2⟩ := hval2 n inp v2 hget2
        rw [hget3, hget2]
        by_cases hmem : n ∈ ops
        · obtain ⟨inp2, v4, hcell2, hns2⟩ := hwf n hmem
          rw [hn] at hcell2
          injection hcell2 with hc2
          injection hc2 with hia hib
          have hnsinp : ∀ j, inp = some j → notSinkAt h j = true := by
            intro j hj
            exact hns2 j (by rw [← hia, hj])
          have hnsinpH : ∀ j, inp = some j →
              notSinkAt (updateSinks h ops).1 j = true := by
            intro j hj
            have := hnsinp j hj
            unfold notSinkAt
            rw [hframe j this]
            unfold notSinkAt at this
            exact this
          rw [hyes2 hmem hnsinpH, hyes hmem hnsinp, hreads inp hnsinp]
        · rw [hno2 hmem]
  have hpair : updateSinks (updateSinks h ops).1 ops =
      ((updateSinks (updateSinks h ops).1 ops).1,
       (updateSinks (updateSinks h ops).1 ops).2) := rfl
  rw [hpair, hheap, hok2]

/-- C9 (amended): propagate is idempotent for every state in which the
tracked gate subset is empty (as holds for every state built through
addComponent, whose gate branch is dead) and no tracked sink's slot
points at another sink — true of every state wired exclusively through
the Registry interface, where a sink's slot is in fact never filled. -/
theorem propagate_idempotent_amended (h : Heap) (s : Sim)
    (hg : s.gates = []) (hwf : sinksWF h s.outputPoints) :
    propagate (propagate h s).1 s = propagate h s := by
  have hone : ∀ h0 : Heap, sinksWF h0 s.outputPoints →
      propagate h0 s = ((updateSinks h0 s.outputPoints).1, Status.ok) := by
    intro h0 hwf0
    obtain ⟨hok0, _, _⟩ := updateSinks_char s.outputPoints h0 hwf0
    have hev : evalGates h0 s.gates false = (h0, false, .ok) := by
      rw [hg]
      rfl
    have haux : propagateAux s (s.gates.length + 1) 0 h0 =
        ((updateSinks h0 s.outputPoints).1, Status.ok) := by
      rw [hg]
      show propagateAux s 1 0 h0 = _
      unfold propagateAux
      rw [hev]
      simp only
      rcases hus : updateSinks h0 s.outputPoints with ⟨H1, st1⟩
      rw [hus] at hok0
      simp only at hok0
      subst hok0
      simp only
      rw [if_neg (by simp)]
      rfl
    unfold propagate
    rw [haux]
    simp only
    have := updateSinks_idem h0 s.outputPoints hwf0
    exact this
  have h1 := hone h hwf
  have hwf1 := sinksWF_updateSinks h s.outputPoints hwf
  have h2 := hone (updateSinks h s.outputPoints).1 hwf1
  rw [h1]
  simp only
  rw [h2]
  have := updateSinks_idem h s.outputPoints hwf
  rw [congrArg Prod.fst this]

/-- Witness for the amended C9 on a concrete input-point-to-sink state. -/
theorem propagate_idempotent_amended_witness :
    propagate (propagate [.inputPoint 1 [], .outputPoint (some 0) 0]
        ⟨[0, 1], [0], [1], []⟩).1 ⟨[0, 1], [0], [1], []⟩ =
      propagate [.inputPoint 1 [], .outputPoint (some 0) 0]
        ⟨[0, 1], [0], [1], []⟩ := by
  apply propagate_idempotent_amended
  · rfl
  · intro i hi
    simp only [List.mem_singleton] at hi
    subst hi
    exact ⟨some 0, 0, rfl, by intro j hj; cases hj; rfl⟩

/-- A chain of three sinks each reading the next, fed by a HIGH input
point — constructible by direct OutputPoint.addInput calls (which the
repository's own tests make), though not through Registry.connect. -/
def sinkChainHeap : Heap :=
  [.outputPoint (some 1) 0, .outputPoint (some 2) 0,
   .outputPoint (some 3) 0, .inputPoint 1 []]

/-- The matching registration state for the sink chain. -/
def sinkChainSim : Sim := ⟨[0, 1, 2, 3], [3], [0, 1, 2], []⟩

/-- C9 counterexample: on the sink chain the first propagate advances
the HIGH value only two refresh sweeps down the chain, so the second
propagate still changes sink 0's cached value — the two snapshots
differ. -/
theorem propagate_idempotent_cex :
    propagate (propagate sinkChainHeap sinkChainSim).1 sinkChainSim ≠
      propagate sinkChainHeap sinkChainSim := by
  decide

/-- Boolean contains agrees with membership. -/
theorem list_contains_mem (l : List Nat) (a : Nat) :
    l.contains a = true ↔ a ∈ l := by
  simp

/-- Appending a fresh element keeps a list duplicate-free. -/
theorem nodup_append_single (l : List Nat) (a : Nat)
    (hn : l.Nodup) (ha : a ∉ l) : (l ++ [a]).Nodup := by
  simp [List.nodup_append, ha, hn]

/-- Duplicate-freedom of a component's own link lists. -/
def compLinksNodup : Component → Prop
  | .inputPoint _ outs => outs.Nodup
  | .outputPoint _ _ => True
  | .gate g => g.inputs.Nodup ∧ g.outputs.Nodup

/-- Every component of the heap has duplicate-free link lists. -/
def LinksNodup (h : Heap) : Prop := ∀ c ∈ h, compLinksNodup c

/-- Looked-up components inherit the heap invariant. -/
theorem linksNodup_get (h : Heap) (i : Nat) (c : Component)
    (hn : LinksNodup h) (hc : h.get? i = some c) : compLinksNodup c :=
  hn c (List.get?_mem hc)

/-- Writing a duplicate-free component preserves the heap invariant. -/
theorem linksNodup_set (h : Heap) (i : Nat) (c : Component)
    (hn : LinksNodup h) (hc : compLinksNodup c) : LinksNodup (h.set i c) := by
  intro c2 hc2
  rcases List.mem_or_eq_of_mem_set hc2 with hm | he
  · exact hn c2 hm
  · rw [he]
    exact hc

/-- compLinksNodup only depends on the link-field projection. -/
theorem compLinksNodup_of_links_eq (c c2 : Component)
    (he : compLinks c2 = compLinks c) (hc : compLinksNodup c) :
    compLinksNodup c2 := by
  have h1 : (compLinks c2).1 = (compLinks c).1 := by rw [he]
  have h3 : (compLinks c2).2.2 = (compLinks c).2.2 := by rw [he]
  have hcIn : (compLinks c).1.Nodup ∧ (compLinks c).2.2.Nodup := by
    cases c <;> simp only [compLinks, compLinksNodup] at hc ⊢
    · exact ⟨List.nodup_nil, hc⟩
    · exact ⟨List.nodup_nil, List.nodup_nil⟩
    · exact hc
  cases c2 <;> simp only [compLinks, compLinksNodup] at h1 h3 ⊢
  · rw [h3]
    exact hcIn.2
  · constructor
    · rw [h1]
      exact hcIn.1
    · rw [h3]
      exact hcIn.2

/-- A heap with the same link fields cell for cell inherits the
invariant. -/
theorem linksNodup_of_heapLinks_eq (h h2 : Heap)
    (he : heapLinks h2 = heapLinks h) (hn : LinksNodup h) : LinksNodup h2 := by
  intro c2 hc2
  obtain ⟨n, hgn⟩ := List.mem_iff_get?.mp hc2
  have h1 : (heapLinks h2).get? n = some (compLinks c2) := by
    unfold heapLinks
    rw [list_get_map, hgn]
    rfl
  rw [he] at h1
  unfold heapLinks at h1
  rw [list_get_map] at h1
  cases hg : h.get? n with
  | none =>
    rw [hg] at h1
    cases h1
  | some c =>
    rw [hg] at h1
    injection h1 with h1
    exact compLinksNodup_of_links_eq c c2 h1.symm (linksNodup_get h n c hn hg)

/-- propagate preserves the invariant (it only rewrites cached values). -/
theorem propagate_linksNodup (h : Heap) (s : Sim) (hn : LinksNodup h) :
    LinksNodup (propagate h s).1 :=
  linksNodup_of_heapLinks_eq h (propagate h s).1 (propagate_links h s) hn

/-- opUpdate preserves the invariant. -/
theorem opUpdate_linksNodup (h : Heap) (i : Nat) (hn : LinksNodup h) :
    LinksNodup (opUpdate h i).1 := by
  unfold opUpdate
  cases hg : h.get? i with
  | none => exact hn
  | some c =>
    cases c with
    | inputPoint v outs => exact hn
    | outputPoint inp v => exact linksNodup_set h i _ hn trivial
    | gate g => exact hn

/-- Every method call preserves duplicate-freedom of all link lists:
each push is guarded by an includes check and each removal filters. -/
theorem call_linksNodup (f : Nat) :
    ∀ (m : MName) (a b : Nat) (h : Heap),
      LinksNodup h → LinksNodup (call f m a b h).1 := by
  induction f with
  | zero =>
    intro m a b h hn
    exact hn
  | succ f ih =>
    intro m a b h hn
    have cont : ∀ (h1 : Heap) (l1 : List LogMsg), LinksNodup h1 →
        LinksNodup ((match h1.get? a with
          | some (.outputPoint _ v1) =>
            let h2 := h1.set a (.outputPoint (some b) v1)
            match h2.get? b with
            | some (.inputPoint _ outs) =>
              if outs.contains a then
                match opUpdate h2 a with
                | (h3, st) => (h3, l1, st)
              else
                match call f .addOutput b a h2 with
                | (h3, l3, Status.ok) =>
                  match opUpdate h3 a with
                  | (h4, st) => (h4, l1 ++ l3, st)
                | (h3, l3, e) => (h3, l1 ++ l3, e)
            | some (.gate g2) =>
              if g2.outputs.contains a then
                match opUpdate h2 a with
                | (h3, st) => (h3, l1, st)
              else
                match call f .addOutput b a h2 with
                | (h3, l3, Status.ok) =>
                  match opUpdate h3 a with
                  | (h4, st) => (h4, l1 ++ l3, st)
                | (h3, l3, e) => (h3, l1 ++ l3, e)
            | _ =>
              match opUpdate h2 a with
              | (h3, st) => (h3, l1, st)
          | _ => (h1, l1, Status.typeError)) : Heap × List LogMsg × Status).1 := by
      intro h1 l1 hn1
      cases hA : h1.get? a with
      | none => exact hn1
      | some c =>
        cases c with
        | inputPoint v outs => exact hn1
        | gate g => exact hn1
        | outputPoint inp v1 =>
          simp only []
          have hn2 : LinksNodup (h1.set a (.outputPoint (some b) v1)) :=
            linksNodup_set h1 a _ hn1 trivial
          cases hB : (h1.set a (.outputPoint (some b) v1)).get? b with
          | none => exact opUpdate_linksNodup _ a hn2
          | some c2 =>
            cases c2 with
            | outputPoint i2 v2 => exact opUpdate_linksNodup _ a hn2
            | inputPoint v2 o2 =>
              simp only []
              by_cases hct : o2.contains a
              · rw [if_pos hct]
                exact opUpdate_linksNodup _ a hn2
              · rw [if_neg hct]
                rcases hcall : call f .addOutput b a (h1.set a (.outputPoint (some b) v1))
                  with ⟨h3, l3, st⟩
                have hn3 := ih .addOutput b a (h1.set a (.outputPoint (some b) v1)) hn2
                rw [hcall] at hn3
                cases st with
                | ok => exact opUpdate_linksNodup h3 a hn3
                | typeError => exact hn3
                | overflow => exact hn3
            | gate g2 =>
              simp only []
              by_cases hct : g2.outputs.contains a
              · rw [if_pos hct]
                exact opUpdate_linksNodup _ a hn2
              · rw [if_neg hct]
                rcases hcall : call f .addOutput b a (h1.set a (.outputPoint (some b) v1))
                  with ⟨h3, l3, st⟩
                have hn3 := ih .addOutput b a (h1.set a (.outputPoint (some b) v1)) hn2
                rw [hcall] at hn3
                cases st with
                | ok => exact opUpdate_linksNodup h3 a hn3
                | typeError => exact hn3
                | overflow => exact hn3
    cases m with
    | addOutput =>
      simp only [call]
      cases hA : h.get? a with
      | none => exact hn
      | some c =>
        cases c with
        | outputPoint inp v => exact hn
        | inputPoint v outs =>
          simp only []
          by_cases hct : outs.contains b
          · rw [if_pos hct]
            exact hn
          · rw [if_neg hct]
            have hb : b ∉ outs := fun hm => hct ((list_contains_mem outs b).mpr hm)
            have hnodup : outs.Nodup := linksNodup_get h a _ hn hA
            have hn1 : LinksNodup (h.set a (.inputPoint v (outs ++ [b]))) :=
              linksNodup_set h a _ hn (nodup_append_single outs b hnodup hb)
            cases hB : (h.set a (.inputPoint v (outs ++ [b]))).get? b with
            | none => exact hn1
            | some c2 =>
              cases c2 with
              | inputPoint v2 o2 => exact hn1
              | outputPoint i2 v2 => exact hn1
              | gate g2 =>
                simp only []
                by_cases hct2 : g2.inputs.contains a
                · rw [if_pos hct2]
                  exact hn1
                · rw [if_neg hct2]
                  exact ih .addInput b a _ hn1
        | gate g =>
          simp only []
          by_cases hct : g.outputs.contains b
          · rw [if_pos hct]
            exact hn
          · rw [if_neg hct]
            have hb : b ∉ g.outputs := fun hm => hct ((list_contains_mem g.outputs b).mpr hm)
            have hnodup := linksNodup_get h a _ hn hA
            have hn1 : LinksNodup (h.set a (.gate { g with outputs := g.outputs ++ [b] })) :=
              linksNodup_set h a _ hn
                ⟨hnodup.1, nodup_append_single g.outputs b hnodup.2 hb⟩
            cases hB : (h.set a (.gate { g with outputs := g.outputs ++ [b] })).get? b with
            | none => exact hn1
            | some c2 =>
              cases c2 with
              | inputPoint v2 o2 => exact hn1
              | outputPoint i2 v2 => exact hn1
              | gate g2 =>
                simp only []
                by_cases hct2 : g2.inputs.contains a
                · rw [if_pos hct2]
                  exact hn1
                · rw [if_neg hct2]
                  exact ih .addInput b a _ hn1
    | addInput =>
      simp only [call]
      cases hA : h.get? a with
      | none => exact hn
      | some c =>
        cases c with
        | inputPoint v outs => exact hn
        | gate g =>
          simp only []
          by_cases hlen : g.inputs.length < g.maxInputs
          · rw [if_pos hlen]
            by_cases hct : g.inputs.contains b
            · rw [if_pos hct]
              exact hn
            · rw [if_neg hct]
              have hb : b ∉ g.inputs := fun hm => hct ((list_contains_mem g.inputs b).mpr hm)
              have hnodup := linksNodup_get h a _ hn hA
              have hn1 : LinksNodup (h.set a (.gate { g with inputs := g.inputs ++ [b] })) :=
                linksNodup_set h a _ hn
                  ⟨nodup_append_single g.inputs b hnodup.1 hb, hnodup.2⟩
              cases hB : (h.set a (.gate { g with inputs := g.inputs ++ [b] })).get? b with
              | none => exact hn1
              | some c2 =>
                cases c2 with
                | inputPoint v2 o2 => exact ih .addOutput b a _ hn1
                | gate g2 => exact ih .addOutput b a _ hn1
                | outputPoint i2 v2 => exact hn1
          · rw [if_neg hlen]
            exact hn
        | outputPoint inp v =>
          simp only []
          cases inp with
          | none => exact cont h [] hn
          | some old =>
            simp only []
            by_cases hold : old = b
            · rw [if_pos hold]
              exact cont h [] hn
            · rw [if_neg hold]
              cases hO : h.get? old with
              | none => exact cont h [.warnReplacing] hn
              | some cOld =>
                cases cOld with
                | outputPoint i2 v2 => exact cont h [.warnReplacing] hn
                | inputPoint v2 o2 =>
                  rcases hcall : call f .removeOutput old a h with ⟨h1, l1, st⟩
                  have hn1 := ih .removeOutput old a h hn
                  rw [hcall] at hn1
                  cases st with
                  | ok => exact cont h1 (.warnReplacing :: l1) hn1
                  | typeError => exact hn1
                  | overflow => exact hn1
                | gate g2 =>
                  rcases hcall : call f .removeOutput old a h with ⟨h1, l1, st⟩
                  have hn1 := ih .removeOutput old a h hn
                  rw [hcall] at hn1
                  cases st with
                  | ok => exact cont h1 (.warnReplacing :: l1) hn1
                  | typeError => exact hn1
                  | overflow => exact hn1
    | removeOutput =>
      simp only [call]
      cases hA : h.get? a with
      | none => exact hn
      | some c =>
        cases c with
        | outputPoint inp v => exact hn
        | inputPoint v outs =>
          simp only []
          have hn1 : LinksNodup (h.set a (.inputPoint v (outs.filter (· != b)))) :=
            linksNodup_set h a _ hn ((linksNodup_get h a _ hn hA).filter _)
          cases hB : (h.set a (.inputPoint v (outs.filter (· != b)))).get? b with
          | none => exact hn1
          | some c2 =>
            cases c2 with
            | inputPoint v2 o2 => exact hn1
            | outputPoint i2 v2 => exact ih .removeInput b a _ hn1
            | gate g2 => exact ih .removeInput b a _ hn1
        | gate g =>
          simp only []
          have hnodup := linksNodup_get h a _ hn hA
          have hn1 : LinksNodup (h.set a (.gate { g with outputs := g.outputs.filter (· != b) })) :=
            linksNodup_set h a _ hn ⟨hnodup.1, hnodup.2.filter _⟩
          cases hB : (h.set a (.gate { g with outputs := g.outputs.filter (· != b) })).get? b with
          | none => exact hn1
          | some c2 =>
            cases c2 with
            | inputPoint v2 o2 => exact hn1
            | outputPoint i2 v2 => exact ih .removeInput b a _ hn1
            | gate g2 => exact ih .removeInput b a _ hn1
    | removeInput =>
      simp only [call]
      cases hA : h.get? a with
      | none => exact hn
      | some c =>
        cases c with
        | inputPoint v outs => exact hn
        | gate g =>
          simp only []
          have hnodup := linksNodup_get h a _ hn hA
          have hn1 : LinksNodup (h.set a (.gate { g with inputs := g.inputs.filter (· != b) })) :=
            linksNodup_set h a _ hn ⟨hnodup.1.filter _, hnodup.2⟩
          cases hB : (h.set a (.gate { g with inputs := g.inputs.filter (· != b) })).get? b with
          | none => exact hn1
          | some c2 =>
            cases c2 with
            | inputPoint v2 o2 => exact ih .removeOutput b a _ hn1
            | gate g2 => exact ih .removeOutput b a _ hn1
            | outputPoint i2 v2 => exact hn1
        | outputPoint inp v =>
          simp only []
          cases inp with
          | none => exact linksNodup_set h a _ hn trivial
          | some old =>
            simp only []
            cases hO : h.get? old with
            | none => exact linksNodup_set h a _ hn trivial
            | some cOld =>
              cases cOld with
              | outputPoint i2 v2 => exact linksNodup_set h a _ hn trivial
              | inputPoint v2 o2 =>
                rcases hcall : call f .removeOutput old a h with ⟨h1, l1, st⟩
                have hn1 := ih .removeOutput old a h hn
                rw [hcall] at hn1
                cases st with
                | ok =>
                  simp only []
                  cases hA2 : h1.get? a with
                  | none => exact hn1
                  | some c3 =>
                    cases c3 with
                    | inputPoint v3 o3 => exact hn1
                    | gate g3 => exact hn1
                    | outputPoint i3 v3 => exact linksNodup_set h1 a _ hn1 trivial
                | typeError => exact hn1
                | overflow => exact hn1
              | gate g2 =>
                rcases hcall : call f .removeOutput old a h with ⟨h1, l1, st⟩
                have hn1 := ih .removeOutput old a h hn
                rw [hcall] at hn1
                cases st with
                | ok =>
                  simp only []
                  cases hA2 : h1.get? a with
                  | none => exact hn1
                  | some c3 =>
                    cases c3 with
                    | inputPoint v3 o3 => exact hn1
                    | gate g3 => exact hn1
                    | outputPoint i3 v3 => exact linksNodup_set h1 a _ hn1 trivial
                | typeError => exact hn1
                | overflow => exact hn1

/-- Simulation.connect preserves duplicate-freedom of all link lists. -/
theorem connect_linksNodup (fuel : Nat) (h : Heap) (s : Sim) (src tgt : Nat)
    (hn : LinksNodup h) : LinksNodup (connect fuel h s src tgt).1 := by
  unfold connect
  by_cases hreg : ¬ (s.components.contains src ∧ s.components.contains tgt)
  · rw [if_pos hreg]
    exact hn
  · rw [if_neg hreg]
    by_cases hcap : hasAddOutput h src ∧ hasAddInput h tgt
    · rw [if_pos hcap]
      rcases hcall : call fuel .addOutput src tgt h with ⟨h1, l1, st⟩
      have hn1 := call_linksNodup fuel .addOutput src tgt h hn
      rw [hcall] at hn1
      cases st with
      | ok => exact propagate_linksNodup h1 s hn1
      | typeError => exact hn1
      | overflow => exact hn1
    · rw [if_neg hcap]
      exact propagate_linksNodup h s hn

/-- The public link-creating operations of the claims: Registry connect
and the direct addInput/addOutput node methods. -/
inductive LinkOp where
  | connectOp (src tgt : Nat)
  | addInputOp (self other : Nat)
  | addOutputOp (self other : Nat)
deriving DecidableEq, Repr

/-- Run one link operation (with its own stack budget) and keep the
resulting heap — mutations persist even when the operation threw. -/
def applyLinkOp (s : Sim) (h : Heap) : Nat × LinkOp → Heap
  | (fuel, .connectOp x y) => (connect fuel h s x y).1
  | (fuel, .addInputOp x y) => (call fuel .addInput x y h).1
  | (fuel, .addOutputOp x y) => (call fuel .addOutput x y h).1

/-- Run a sequence of link operations. -/
def applyLinkOps (s : Sim) : List (Nat × LinkOp) → Heap → Heap
  | [], h => h
  | op :: rest, h => applyLinkOps s rest (applyLinkOp s h op)

/-- Nodes a and b are symmetrically linked: b is listed among a's
downstream listeners, and a is listed among b's upstream sources (list
entry or single slot). -/
def symLinked (h : Heap) (a b : Nat) : Prop :=
  (∃ c, h.get? a = some c ∧ b ∈ (compLinks c).2.2) ∧
  (∃ c, h.get? b = some c ∧ (a ∈ (compLinks c).1 ∨ (compLinks c).2.1 = some a))

/-- C10: no sequence of public connect/link operations ever creates a
duplicate entry in any node's upstream or downstream list, and
connecting an already symmetrically linked pair changes no node's link
fields (the membership guard makes link creation idempotent). -/
theorem link_creation_nodup_and_idempotent :
    (∀ (s : Sim) (ops : List (Nat × LinkOp)) (h : Heap),
      LinksNodup h → LinksNodup (applyLinkOps s ops h)) ∧
    (∀ (fuel : Nat) (h : Heap) (s : Sim) (a b : Nat),
      symLinked h a b → heapLinks (connect fuel h s a b).1 = heapLinks h) := by
  constructor
  · intro s ops
    induction ops with
    | nil => intro h hn; exact hn
    | cons op rest ih =>
      intro h hn
      rcases op with ⟨fuel, o⟩
      cases o with
      | connectOp x y => exact ih _ (connect_linksNodup fuel h s x y hn)
      | addInputOp x y => exact ih _ (call_linksNodup fuel .addInput x y h hn)
      | addOutputOp x y => exact ih _ (call_linksNodup fuel .addOutput x y h hn)
  · intro fuel h s a b hsym
    obtain ⟨⟨ca, hca, hbmem⟩, ⟨cb, hcb, hamem⟩⟩ := hsym
    unfold connect
    by_cases hreg : ¬ (s.components.contains a ∧ s.components.contains b)
    · rw [if_pos hreg]
    · rw [if_neg hreg]
      have hAO : hasAddOutput h a = true := by
        unfold hasAddOutput
        rw [hca]
        cases ca with
        | inputPoint v outs => rfl
        | gate g => rfl
        | outputPoint inp v =>
          simp only [compLinks] at hbmem
          cases hbmem
      have hAI : hasAddInput h b = true := by
        unfold hasAddInput
        rw [hcb]
        cases cb with
        | gate g => rfl
        | outputPoint inp v => rfl
        | inputPoint v outs =>
          simp only [compLinks] at hamem
          rcases hamem with hm | hm
          · cases hm
          · cases hm
      rw [if_pos ⟨hAO, hAI⟩]
      have hcallEq : call fuel .addOutput a b h = (h, [], .ok) ∨
          call fuel .addOutput a b h = (h, [], .overflow) := by
        cases fuel with
        | zero => exact Or.inr rfl
        | succ f =>
          left
          cases ca with
          | outputPoint inp v =>
            simp only [compLinks] at hbmem
            cases hbmem
          | inputPoint v outs =>
            simp only [compLinks] at hbmem
            have : outs.contains b = true := (list_contains_mem outs b).mpr hbmem
            simp only [call, hca]
            rw [if_pos this]
          | gate g =>
            simp only [compLinks] at hbmem
            have : g.outputs.contains b = true := (list_contains_mem g.outputs b).mpr hbmem
            simp only [call, hca]
            rw [if_pos this]
      rcases hcallEq with he | he
      · rw [he]
        exact propagate_links h s
      · rw [he]

/-- Witness for C10: the empty-sequence invariant on a concrete
duplicate-free heap, and idempotence of a concrete already-linked
connect. -/
theorem link_creation_nodup_and_idempotent_witness :
    LinksNodup (applyLinkOps ⟨[0, 1], [0], [], []⟩
      [(5, .connectOp 0 1)] [.inputPoint 0 [1], .gate ⟨.andK, [0], 0, [], 2⟩]) ∧
    heapLinks (connect 5 [.inputPoint 0 [1], .gate ⟨.andK, [0], 0, [], 2⟩]
      ⟨[0, 1], [0], [], []⟩ 0 1).1 =
      heapLinks [.inputPoint 0 [1], .gate ⟨.andK, [0], 0, [], 2⟩] := by
  constructor
  · apply link_creation_nodup_and_idempotent.1
    intro c hc
    simp only [List.mem_cons, List.mem_singleton] at hc
    rcases hc with rfl | rfl | hc
    · exact List.nodup_singleton 1
    · exact ⟨List.nodup_singleton 0, List.nodup_nil⟩
    · cases hc
  · apply link_creation_nodup_and_idempotent.2
    refine ⟨⟨.inputPoint 0 [1], rfl, ?_⟩, ⟨.gate ⟨.andK, [0], 0, [], 2⟩, rfl, Or.inl ?_⟩⟩
    · simp [compLinks]
    · simp [compLinks]
